import Mathlib

/-!
Shallow embedding of the mcp-cicd deployment agent
(`src/mcp_cicd/utils/validation.py`, `utils/state_manager.py`,
`utils/git_utils.py`, `utils/docker_utils.py`, `tools/docker_tools.py`,
`tools/lifecycle_tools.py`, `tools/health_tools.py`) and proofs about it.

Python strings are modelled as Lean `String` (or `List Char` where character
level recursion is needed); fallible functions return `Option`/`Except`.
-/

namespace McpCicd

/-! ### Character classes used by the validation regexes (validation.py)

The regexes in the source only use ASCII classes; each class below is the
exact set of characters the corresponding regex bracket matches. -/

def isLowerAlpha (c : Char) : Bool := 'a' ≤ c && c ≤ 'z'

def isUpperAlpha (c : Char) : Bool := 'A' ≤ c && c ≤ 'Z'

def isDigitChar (c : Char) : Bool := '0' ≤ c && c ≤ '9'

def isAlphaNumAscii (c : Char) : Bool := isLowerAlpha c || isUpperAlpha c || isDigitChar c

/-- Python `re.match(r'^BODY$', s)` (no MULTILINE): `$` matches at the end of
the string or just before a newline that ends the string, so the pattern body
may match the whole string or the string less one final newline. -/
def pyFullMatch (body : List Char → Bool) (l : List Char) : Bool :=
  body l || (l.getLast? == some '\n' && body l.dropLast)

/-! ### validate_image_tag (validation.py lines 79-115)

`tag.split(':', 1)`: split at the first colon only. The name part must start
with a lowercase letter or digit followed by lowercase letters, digits, dots,
underscores, hyphens or slashes; the version part is one or more letters,
digits, dots, underscores or hyphens. Both anchored patterns go through
`pyFullMatch`, which carries the `$`-before-one-trailing-newline semantics of
`re.match`. The version
defaults to "latest" when the tag has no colon; the result is
`f"{name}:{version}"`. -/

def isNameStart (c : Char) : Bool := isLowerAlpha c || isDigitChar c

def isNameChar (c : Char) : Bool :=
  isNameStart c || c = '.' || c = '_' || c = '-' || c = '/'

def matchesNamePatBody : List Char → Bool
  | [] => false
  | c :: rest => isNameStart c && rest.all isNameChar

def matchesNamePat (l : List Char) : Bool := pyFullMatch matchesNamePatBody l

def isVersionChar (c : Char) : Bool :=
  isLowerAlpha c || isUpperAlpha c || isDigitChar c || c = '.' || c = '_' || c = '-'

def matchesVersionPatBody (l : List Char) : Bool := !l.isEmpty && l.all isVersionChar

def matchesVersionPat (l : List Char) : Bool := pyFullMatch matchesVersionPatBody l

/-- Python `tag.split(':', 1)`: the characters before the first colon, and
`some` suffix after it when a colon exists. -/
def splitFirstColon : List Char → List Char × Option (List Char)
  | [] => ([], none)
  | c :: rest =>
      if c = ':' then ([], some rest)
      else
        let p := splitFirstColon rest
        (c :: p.1, p.2)

/-- `validate_image_tag` on char lists; `none` models raising ValidationError. -/
def validate_image_tag (tag : List Char) : Option (List Char) :=
  let p := splitFirstColon tag
  let name := p.1
  let version := p.2.getD ("latest".toList)
  if matchesNamePat name && matchesVersionPat version then
    some (name ++ ':' :: version)
  else
    none

/-- `validate_image_tag` at the source's type (Python str → str). -/
def validate_image_tag_str (tag : String) : Option String :=
  (validate_image_tag tag.toList).map (fun l => String.mk l)

/-! ### sanitize_environment_variables (validation.py lines 191-230)

Keys must match `^[A-Z_][A-Z0-9_]*$`.  Values are rejected when they match any
of `.*[;&|` ​`$].*`, `.*\$\(.*\).*`, `.*`..`.*` under `re.match`: since `.`
does not match a newline, each pattern only fires when its witness characters
occur with no newline before/between them. -/

def isEnvKeyStart (c : Char) : Bool := isUpperAlpha c || c = '_'

def isEnvKeyChar (c : Char) : Bool := isUpperAlpha c || isDigitChar c || c = '_'

def matchesEnvKeyPatBody : List Char → Bool
  | [] => false
  | c :: rest => isEnvKeyStart c && rest.all isEnvKeyChar

def matchesEnvKeyPat (l : List Char) : Bool := pyFullMatch matchesEnvKeyPatBody l

/-- The bracket `[;&|` ​`$]` of the first dangerous pattern (backtick written
via its code point). -/
def dangerousEnvChars : List Char := [';', '&', '|', Char.ofNat 96, '$']

/-- `re.match(r'.*[;&|`$].*', v)`: a dangerous character occurs with no
newline before it. -/
def matchesDangerousMeta : List Char → Bool
  | [] => false
  | c :: rest =>
      if dangerousEnvChars.contains c then true
      else if c = '\n' then false
      else matchesDangerousMeta rest

/-- After having seen `open_`, scan (within the current line) for `close`. -/
def scanForChar (close : Char) : List Char → Bool
  | [] => false
  | c :: rest =>
      if c = close then true
      else if c = '\n' then false
      else scanForChar close rest

/-- `re.match(r'.*\$\(.*\).*', v)`: a `$(` followed (same line) by `)`. -/
def matchesCommandSubst : List Char → Bool
  | [] => false
  | c :: rest =>
      if c = '$' then
        match rest with
        | '(' :: tail => if scanForChar ')' tail then true else matchesCommandSubst rest
        | _ => matchesCommandSubst rest
      else if c = '\n' then false
      else matchesCommandSubst rest

/-- `re.match(r'.*`.*`.*', v)`: two backticks on the first line. -/
def matchesBacktickPair : List Char → Bool
  | [] => false
  | c :: rest =>
      if c = Char.ofNat 96 then scanForChar (Char.ofNat 96) rest
      else if c = '\n' then false
      else matchesBacktickPair rest

def envValueDangerous (v : String) : Bool :=
  matchesDangerousMeta v.toList || matchesCommandSubst v.toList || matchesBacktickPair v.toList

/-- `sanitize_environment_variables`: iterate the dict in insertion order;
raise on the first bad key or dangerous value, else return the pairs
unchanged (values are already strings in this model). `.error k` models
`ValidationError` mentioning key `k`. -/
def sanitize_environment_variables : List (String × String) → Except String (List (String × String))
  | [] => .ok []
  | (k, v) :: rest =>
      if !matchesEnvKeyPat k.toList then .error k
      else if envValueDangerous v then .error k
      else
        match sanitize_environment_variables rest with
        | .ok tail => .ok ((k, v) :: tail)
        | .error e => .error e

/-! ### validate_container_name (validation.py lines 48-76)

Pattern `^[A-Za-z0-9][A-Za-z0-9_-]+$` (note `+`: at least two characters),
then length ≤ 63. -/

def isContainerNameChar (c : Char) : Bool := isAlphaNumAscii c || c = '_' || c = '-'

def matchesContainerNamePatBody : List Char → Bool
  | [] => false
  | c :: rest => isAlphaNumAscii c && !rest.isEmpty && rest.all isContainerNameChar

def matchesContainerNamePat (l : List Char) : Bool :=
  pyFullMatch matchesContainerNamePatBody l

def validate_container_name (name : String) : Option String :=
  if matchesContainerNamePat name.toList then
    if name.toList.length ≤ 63 then some name else none
  else none

/-! ### validate_port (validation.py lines 118-145)

Ports are modelled as `ℕ` (a negative Python int fails the same lower-bound
check that a too-small natural fails, so no accepted value is lost). -/

def validate_port (port : ℕ) (min_port : ℕ := 1024) (max_port : ℕ := 65535) : Option ℕ :=
  if min_port ≤ port && port ≤ max_port then some port else none

/-! ### validate_deployment_id (validation.py lines 233-255)

Pattern `^dep-\d{8}-[a-z0-9]+$`.  `\d` is modelled as the ASCII digits; the
ids this program generates and stores are ASCII. -/

def matchesDeploymentIdBody : List Char → Bool
  | 'd' :: 'e' :: 'p' :: '-' :: rest =>
      let digits := rest.take 8
      let rest2 := rest.drop 8
      decide (digits.length = 8) && digits.all isDigitChar &&
      (match rest2 with
       | '-' :: tail => !tail.isEmpty && tail.all (fun c => isLowerAlpha c || isDigitChar c)
       | _ => false)
  | _ => false

def matchesDeploymentIdPattern (s : String) : Bool :=
  pyFullMatch matchesDeploymentIdBody s.toList

def validate_deployment_id (deployment_id : String) : Option String :=
  if matchesDeploymentIdPattern deployment_id then some deployment_id else none

/-! ### Data model (models/deployment.py)

`DeploymentStatus` is a `str` enum; with `use_enum_values = True` the record
and the index both hold the string value, so comparisons in the store are
string comparisons.  Timestamps are carried as their ISO-8601 serializations
(the store only ever compares and stores them as strings). -/

inductive DeploymentStatus
  | pending | cloning | building | deploying | running | failed | stopped | rolled_back
deriving DecidableEq

def DeploymentStatus.value : DeploymentStatus → String
  | .pending => "pending"
  | .cloning => "cloning"
  | .building => "building"
  | .deploying => "deploying"
  | .running => "running"
  | .failed => "failed"
  | .stopped => "stopped"
  | .rolled_back => "rolled_back"

structure DeploymentRecord where
  deployment_id : String
  repo_url : String
  branch : String
  commit_sha : String
  project_type : String
  image_name : String
  image_tag : String
  container_name : String
  container_id : Option String
  host_port : ℕ
  container_port : ℕ
  status : DeploymentStatus
  created_at : String
  started_at : Option String
  completed_at : Option String
  rollback_from : Option String
deriving DecidableEq

/-- One entry of `index.json`'s `deployments` list (state_manager.py). -/
structure IndexEntry where
  deployment_id : String
  status : String
  repo_url : String
  updated_at : String
deriving DecidableEq

/-! ### State store (utils/state_manager.py)

The deployment directory is modelled as the association list of record files
(`<deployment_id>.json` ↦ parsed record) plus the parsed index. -/

structure StateStore where
  records : List (String × DeploymentRecord)
  index : List IndexEntry
deriving DecidableEq

/-- Reading `<deployment_id>.json`, `None` when the file does not exist
(`load`, state_manager.py lines 118-135). -/
def StateStore.load (st : StateStore) (deployment_id : String) : Option DeploymentRecord :=
  (st.records.find? (fun p => p.1 == deployment_id)).map (fun p => p.2)

/-- `_update_index` (state_manager.py lines 98-116): drop every entry with the
same id, then append the fresh entry with `updated_at = now`. -/
def update_index (index : List IndexEntry) (deployment_id status repo_url now : String) :
    List IndexEntry :=
  index.filter (fun d => d.deployment_id != deployment_id)
    ++ [⟨deployment_id, status, repo_url, now⟩]

/-- `save` (state_manager.py lines 76-96): atomically replace the record file,
then update the index.  `now` is `datetime.utcnow().isoformat()`. -/
def StateStore.save (st : StateStore) (record : DeploymentRecord) (now : String) : StateStore :=
  { records :=
      st.records.filter (fun p => p.1 != record.deployment_id)
        ++ [(record.deployment_id, record)]
    index := update_index st.index record.deployment_id record.status.value record.repo_url now }

/-- The filter of `find_latest_successful` (state_manager.py lines 166-171):
same repo, status `"running"`, id different from `exclude` (comparing a
Python str with `None` is always unequal, hence the `Option` comparison). -/
def fls_candidates (index : List IndexEntry) (repo_url : String) (exclude : Option String) :
    List IndexEntry :=
  index.filter (fun d =>
    d.repo_url == repo_url && d.status == DeploymentStatus.running.value
      && !(some d.deployment_id == exclude))

/-- Python's `<=` on `str`: lexicographic comparison by code points. -/
def lexLe : List Char → List Char → Bool
  | [], _ => true
  | _ :: _, [] => false
  | c :: cs, d :: ds =>
      if c.toNat < d.toNat then true
      else if d.toNat < c.toNat then false
      else lexLe cs ds

/-- `updated_at` key comparison used by the sort in `find_latest_successful`. -/
def updLe (a b : IndexEntry) : Bool := lexLe a.updated_at.toList b.updated_at.toList

/-- Stable insertion, descending on `updated_at` (ties keep the earlier
element first, as Python's stable `list.sort` does). -/
def insertByUpdatedDesc (e : IndexEntry) : List IndexEntry → List IndexEntry
  | [] => [e]
  | x :: xs =>
      if updLe x e then e :: x :: xs
      else x :: insertByUpdatedDesc e xs

/-- `candidates.sort(key=lambda x: x["updated_at"], reverse=True)`: a stable
sort is determined by the key order and stability, so this insertion sort
computes the same list as Python's Timsort call. -/
def sortByUpdatedDesc : List IndexEntry → List IndexEntry
  | [] => []
  | x :: xs => insertByUpdatedDesc x (sortByUpdatedDesc xs)

/-- `find_latest_successful` (state_manager.py lines 148-180). -/
def StateStore.find_latest_successful (st : StateStore) (repo_url : String)
    (exclude : Option String := none) : Option DeploymentRecord :=
  let candidates := fls_candidates st.index repo_url exclude
  match sortByUpdatedDesc candidates with
  | [] => none
  | latest :: _ => st.load latest.deployment_id

/-! ### validate_git_url (utils/git_utils.py lines 98-145)

Order of the checks, as in the source: scheme, dangerous characters,
hostname extraction, allowlist membership.  Each `raise GitOperationError`
site is one error constructor. -/

inductive GitUrlResult
  | ok (hostname : String)
  | errScheme
  | errDangerous
  | errNoHost
  | errHostNotAllowed (hostname : String)
deriving DecidableEq

/-- `dangerous_chars = [';', '|', '&', '$', '`']` (backtick via code point). -/
def dangerousUrlChars : List Char := [';', '|', '&', '$', Char.ofNat 96]

/-- One attempt of the capture pattern at the current position: the text must
begin with `pre`, then the capture is the maximal nonempty run of characters
other than `stop`, and a `stop` must follow it (the greedy `([^:]+):` and
`([^/]+)/` captures of the source's regexes). -/
def extractBetween (pre : List Char) (stop : Char) (l : List Char) : Option (List Char) :=
  if pre.isPrefixOf l then
    let rest := l.drop pre.length
    let host := rest.takeWhile (fun c => c ≠ stop)
    if host.isEmpty then none
    else if (rest.drop host.length).isEmpty then none
    else some host
  else none

/-- `re.search(r'git@([^:]+):', url)`: try the capture at every start
position, leftmost match wins. -/
def reSearchCapture (pre : List Char) (stop : Char) : List Char → Option (List Char)
  | [] => none
  | c :: rest =>
      match extractBetween pre stop (c :: rest) with
      | some host => some host
      | none => reSearchCapture pre stop rest

/-- `re.search(r'https?://([^/]+)/', url)`: at each position the alternation
tries `https://` then `http://` (at most one of the two literals can be
present), advancing one character on failure. -/
def reSearchCaptureHttp : List Char → Option (List Char)
  | [] => none
  | c :: rest =>
      match extractBetween ("https://".toList) '/' (c :: rest) with
      | some host => some host
      | none =>
          match extractBetween ("http://".toList) '/' (c :: rest) with
          | some host => some host
          | none => reSearchCaptureHttp rest

def validate_git_url (url : String) (allowed_hosts : List String) : GitUrlResult :=
  let l := url.toList
  if !("https://".toList.isPrefixOf l || "http://".toList.isPrefixOf l
        || "git@".toList.isPrefixOf l) then
    .errScheme
  else if l.any (fun c => dangerousUrlChars.contains c) then
    .errDangerous
  else
    let hostOpt :=
      if "git@".toList.isPrefixOf l then
        reSearchCapture "git@".toList ':' l
      else
        reSearchCaptureHttp l
    match hostOpt with
    | none => .errNoHost
    | some host =>
        let hostname := String.mk host
        if allowed_hosts.contains hostname then .ok hostname
        else .errHostNotAllowed hostname

/-! ### Deployment-id generation

`tools/docker_tools.py` line 243:
  `dep_id = deployment_id or f"dep-{now.strftime('%Y%m%d%H%M%S')}-{validated_name}"`
`tools/lifecycle_tools.py` line 199:
  `rollback_id = f"dep-{datetime.utcnow().strftime('%Y%m%d')}-rollback-{prev_short_sha}"`
A timestamp is its calendar fields; strftime's numeric directives zero-pad to
two digits (four for the year, which is four digits for all realistic years). -/

structure Timestamp where
  year : ℕ
  month : ℕ
  day : ℕ
  hour : ℕ
  minute : ℕ
  second : ℕ
deriving DecidableEq

/-- Two-digit zero-padded field (values are calendar fields, < 100). -/
def pad2 (n : ℕ) : String := (if n < 10 then "0" else "") ++ toString n

/-- `strftime('%Y%m%d')`. -/
def fmtYMD (t : Timestamp) : String := toString t.year ++ pad2 t.month ++ pad2 t.day

/-- `strftime('%Y%m%d%H%M%S')`. -/
def fmtYMDHMS (t : Timestamp) : String :=
  fmtYMD t ++ pad2 t.hour ++ pad2 t.minute ++ pad2 t.second

/-- The id `deploy_container` generates when the caller omits
`deployment_id`. -/
def gen_deploy_id (now : Timestamp) (validated_name : String) : String :=
  "dep-" ++ fmtYMDHMS now ++ "-" ++ validated_name

/-- The id `rollback` generates. -/
def gen_rollback_id (today : Timestamp) (prev_short_sha : String) : String :=
  "dep-" ++ fmtYMD today ++ "-rollback-" ++ prev_short_sha

/-- Python's `x or default` for an optional string argument: `None` and the
empty string are falsy. -/
def pyOr (x : Option String) (default : String) : String :=
  match x with
  | none => default
  | some s => if s.isEmpty then default else s

/-- Python truthiness of an optional string argument. -/
def truthy (x : Option String) : Bool :=
  match x with
  | none => false
  | some s => !s.isEmpty

/-! ### _atomic_write_json (utils/state_manager.py lines 40-74)

The function touches exactly two paths: the target file and the freshly
created `.tmp_*.json` in the same directory.  `α` is the type of a complete,
parseable serialization; the temp file can additionally be empty or
partially written, the target cannot (only the atomic `os.replace` ever
writes it).  A run is the sequence of filesystem states after each step,
with one error-injection point:

  failAt = 0 : `tempfile.mkstemp` raises (no temp file is created);
  failAt = 1 : `json.dump`/`flush` raises mid-write;
  failAt = 2 : `os.fsync` raises;
  failAt = 3 : `os.replace` raises (rename is atomic, so nothing changed);
  failAt ≥ 4 : no error.

On any error after step 0 the `except` branch unlinks the temp file and
re-raises as `ConfigurationError` (`ok = false`). -/

inductive TmpFile (α : Type)
  | absent
  | incomplete
  | full (d : α)
deriving DecidableEq

structure FsState (α : Type) where
  target : Option α
  tmp : TmpFile α
deriving DecidableEq

def atomic_write_run {α : Type} (old : Option α) (data : α) (failAt : ℕ) :
    List (FsState α) × Bool :=
  let s0 : FsState α := ⟨old, .absent⟩
  let s1 : FsState α := ⟨old, .incomplete⟩
  let s2 : FsState α := ⟨old, .full data⟩
  let sClean : FsState α := ⟨old, .absent⟩
  let sDone : FsState α := ⟨some data, .absent⟩
  match failAt with
  | 0 => ([s0], false)
  | 1 => ([s0, s1, sClean], false)
  | 2 => ([s0, s1, s2, sClean], false)
  | 3 => ([s0, s1, s2, s2, sClean], false)
  | _ + 4 => ([s0, s1, s2, s2, sDone], true)

/-! ### healthcheck (tools/health_tools.py lines 78-190)

The world outside the loop is a stream of attempt outcomes: the duration of
the HTTP GET and either a status code or a connection/timeout error.
Durations and intervals are rationals (seconds).  The loop re-reads the
monotonic clock at its head: elapsed time is the sum of request durations
and sleeps so far.  `fuelOut` is the model artifact for exhausting the
finite outcome stream while the deadline has not passed. -/

structure HcAttempt where
  dur : ℚ
  result : Option ℕ
deriving DecidableEq

inductive HcOutcome
  | healthy (response_code : ℕ) (attempts : ℕ) (elapsed : ℚ)
  | unhealthy (attempts : ℕ) (elapsed : ℚ) (last_status : Option ℕ)
  | fuelOut
deriving DecidableEq

/-- Attempts reported by a finished outcome (`fuelOut` reports 0). -/
def HcOutcome.attempts : HcOutcome → ℕ
  | .healthy _ n _ => n
  | .unhealthy n _ _ => n
  | .fuelOut => 0

/-- The `while (time.monotonic() - start_time) < max_timeout` loop.
On a non-matching status or an error the loop sleeps
`min(current_interval, 10.0)` and multiplies the interval by `backoff`. -/
def hcLoop (expected : ℕ) (deadline backoff : ℚ) :
    ℚ → ℕ → ℚ → Option ℕ → List HcAttempt → HcOutcome
  | elapsed, attempt, _, lastStatus, [] =>
      if elapsed < deadline then .fuelOut else .unhealthy attempt elapsed lastStatus
  | elapsed, attempt, interval, lastStatus, a :: rest =>
      if elapsed < deadline then
        let elapsedReq := elapsed + a.dur
        match a.result with
        | some code =>
            if code = expected then .healthy code (attempt + 1) elapsedReq
            else
              hcLoop expected deadline backoff (elapsedReq + min interval 10) (attempt + 1)
                (interval * backoff) (some code) rest
        | none =>
            hcLoop expected deadline backoff (elapsedReq + min interval 10) (attempt + 1)
              (interval * backoff) lastStatus rest
      else .unhealthy attempt elapsed lastStatus

/-- `healthcheck(url, timeout, interval, backoff, expected_status)` reduced to
its observable loop behavior: `timeout` is the effective `max_timeout`
(the caller's value, or `settings.health_check_timeout` when `None`);
`unhealthy` is the `HealthCheckError` raise at the loop's end. -/
def healthcheck (timeout interval backoff : ℚ) (expected_status : ℕ)
    (atts : List HcAttempt) : HcOutcome :=
  hcLoop expected_status timeout backoff 0 0 interval none atts

/-! ### Container driver (utils/docker_utils.py)

The engine itself is abstracted: `is_port_available` is an oracle
`portAvail : ℕ → Bool`, and a successful `client.containers.run` is recorded
as the `EngineRunCall` it was issued with — the claims concern what reaches
the engine call and what is persisted afterwards, not the engine's own
behavior.  `cleanup_existing_container` swallows every engine error by design
and touches no model state. -/

structure EngineRunCall where
  image : String
  name : String
  host_port : ℕ
  container_port : ℕ
  env : List (String × String)
deriving DecidableEq

inductive DeployErr
  | validation
  | portConflict (port : ℕ)
  | portRangeExhausted (low high : ℕ)
deriving DecidableEq

/-- `find_available_port(start, end)`: first `p` in `[start..end]` with
`is_port_available(p)` (docker_utils.py lines 77-99). -/
def find_available_port (low high : ℕ) (portAvail : ℕ → Bool) : Option ℕ :=
  (List.range' low (high + 1 - low)).find? portAvail

/-- `docker_utils.deploy_container` (lines 224-296): pre-check the host port,
clean up any same-named container, strip `RUN_AS_USER` from the environment
(`safe_env.pop`; dict keys are unique, so dropping every matching pair is the
same operation), then call `client.containers.run`. -/
def deploy_container_util (portAvail : ℕ → Bool) (image_tag container_name : String)
    (host_port container_port : ℕ) (env_vars : Option (List (String × String))) :
    Except DeployErr EngineRunCall :=
  if !portAvail host_port then .error (.portConflict host_port)
  else
    let safe_env := (env_vars.getD []).filter (fun p => p.1 != "RUN_AS_USER")
    .ok ⟨image_tag, container_name, host_port, container_port, safe_env⟩

/-! ### The deploy_container tool (tools/docker_tools.py lines 152-294) -/

structure DeployArgs where
  image_tag : String
  container_name : String
  host_port : Option ℕ
  container_port : ℕ
  env_vars : Option (List (String × String))
  repo_url : Option String
  branch : Option String
  commit_sha : Option String
  project_type : Option String
  deployment_id : Option String
deriving DecidableEq

/-- The ambient world the tool reads: the port oracle, the configured port
range, `datetime.utcnow()` (and its ISO serialization, used for the record
timestamps and the index entry), and the container id the engine assigns. -/
structure DeployEnv where
  portAvail : ℕ → Bool
  port_range_start : ℕ
  port_range_end : ℕ
  now : Timestamp
  nowIso : String
  container_id : String

def deploy_container_tool (a : DeployArgs) (w : DeployEnv) (st : StateStore) :
    Except DeployErr (EngineRunCall × DeploymentRecord × StateStore) :=
  match validate_image_tag_str a.image_tag with
  | none => .error .validation
  | some validated_tag =>
  match validate_container_name a.container_name with
  | none => .error .validation
  | some validated_name =>
  match validate_port a.container_port 1 65535 with
  | none => .error .validation
  | some validated_container_port =>
  let portRes : Except DeployErr ℕ :=
    match a.host_port with
    | none =>
        match find_available_port w.port_range_start w.port_range_end w.portAvail with
        | some p => .ok p
        | none => .error (.portRangeExhausted w.port_range_start w.port_range_end)
    | some p =>
        match validate_port p 1024 65535 with
        | none => .error .validation
        | some p' => if w.portAvail p' then .ok p' else .error (.portConflict p')
  match portRes with
  | .error e => .error e
  | .ok assigned_port =>
  match deploy_container_util w.portAvail validated_tag validated_name assigned_port
      validated_container_port a.env_vars with
  | .error e => .error e
  | .ok engineCall =>
  let dep_id := pyOr a.deployment_id (gen_deploy_id w.now validated_name)
  let image_name := String.mk (validated_tag.toList.takeWhile (fun c => c ≠ ':'))
  let record : DeploymentRecord :=
    { deployment_id := dep_id
      repo_url := pyOr a.repo_url "unknown"
      branch := pyOr a.branch "unknown"
      commit_sha := pyOr a.commit_sha "unknown"
      project_type := pyOr a.project_type "docker"
      image_name := image_name
      image_tag := validated_tag
      container_name := validated_name
      container_id := some w.container_id
      host_port := assigned_port
      container_port := validated_container_port
      status := .running
      created_at := w.nowIso
      started_at := some w.nowIso
      completed_at := some w.nowIso
      rollback_from := none }
  .ok (engineCall, record, st.save record w.nowIso)

/-! ### The rollback tool (tools/lifecycle_tools.py lines 97-266) -/

inductive RbErr
  | validationMissing
  | invalidDeploymentId (id : String)
  | deploymentNotFound (id : String)
  | noPrevious (repo : String)
  | engine (e : DeployErr)
deriving DecidableEq

/-- What a successful rollback did: the run call issued to the engine, the
persisted record, the updated store, and — for observation — the previous
record it restored and the failed record it loaded (when an id was given). -/
structure RollbackOutcome where
  engineCall : EngineRunCall
  record : DeploymentRecord
  store : StateStore
  previous : DeploymentRecord
  failedRecord : Option DeploymentRecord
deriving DecidableEq

def rollback (st : StateStore) (deployment_id repo_url : Option String)
    (portAvail : ℕ → Bool) (today : Timestamp) (nowIso : String)
    (engine_container_id : String) : Except RbErr RollbackOutcome :=
  if !truthy deployment_id && !truthy repo_url then .error .validationMissing
  else
  let failedInfo : Except RbErr (Option DeploymentRecord × String × Option String) :=
    if truthy deployment_id then
      let id := deployment_id.getD ""
      match validate_deployment_id id with
      | none => .error (.invalidDeploymentId id)
      | some validated_id =>
        match st.load validated_id with
        | none => .error (.deploymentNotFound validated_id)
        | some failed => .ok (some failed, failed.repo_url, some validated_id)
    else .ok (none, repo_url.getD "", none)
  match failedInfo with
  | .error e => .error e
  | .ok (failedOpt, target_repo_url, exclude_id) =>
  match st.find_latest_successful target_repo_url exclude_id with
  | none => .error (.noPrevious target_repo_url)
  | some previous =>
  -- `stop_and_remove_container` on the failed container: engine side effect
  -- whose failure is logged and swallowed; no model state changes.
  let prev_short_sha := previous.commit_sha.take 7
  let rollback_id := gen_rollback_id today prev_short_sha
  -- `failed_deployment.host_port if deployment_id else previous_deployment.host_port`:
  -- `deployment_id` is truthy exactly when a failed record was loaded.
  let rollback_host_port :=
    match failedOpt with
    | some f => f.host_port
    | none => previous.host_port
  let rollback_container_name :=
    previous.image_name ++ "-rollback-" ++ prev_short_sha ++ "-p" ++ toString rollback_host_port
  match deploy_container_util portAvail previous.image_tag rollback_container_name
      rollback_host_port previous.container_port none with
  | .error e => .error (.engine e)
  | .ok engineCall =>
  let record : DeploymentRecord :=
    { deployment_id := rollback_id
      repo_url := target_repo_url
      branch := previous.branch
      commit_sha := previous.commit_sha
      project_type := previous.project_type
      image_name := previous.image_name
      image_tag := previous.image_tag
      container_name := rollback_container_name
      container_id := some engine_container_id
      host_port := rollback_host_port
      container_port := previous.container_port
      status := .running
      created_at := nowIso
      started_at := some nowIso
      completed_at := some nowIso
      rollback_from := deployment_id }
  .ok ⟨engineCall, record, st.save record nowIso, previous, failedOpt⟩

/-! ### Concrete fixtures used by the witness theorems -/

def recRun : DeploymentRecord :=
  { deployment_id := "dep-20260218-run001"
    repo_url := "https://github.com/u/r.git"
    branch := "main"
    commit_sha := "a1b2c3d4e5f6a7b8c9d0a1b2c3d4e5f6a7b8c9d0"
    project_type := "docker"
    image_name := "myapp"
    image_tag := "myapp:v1"
    container_name := "myapp-v1"
    container_id := some "c001"
    host_port := 8081
    container_port := 8000
    status := .running
    created_at := "2026-02-18T09:00:00"
    started_at := some "2026-02-18T09:00:00"
    completed_at := some "2026-02-18T09:00:00"
    rollback_from := none }

def recFail : DeploymentRecord :=
  { recRun with
    deployment_id := "dep-20260218-fail01"
    image_tag := "myapp:v2"
    container_name := "myapp-v2"
    container_id := some "c002"
    host_port := 8080
    status := .failed
    created_at := "2026-02-18T10:00:00" }

def sampleStore : StateStore :=
  { records := [("dep-20260218-run001", recRun), ("dep-20260218-fail01", recFail)]
    index :=
      [⟨"dep-20260218-run001", "running", "https://github.com/u/r.git", "2026-02-18T09:00:05"⟩,
       ⟨"dep-20260218-fail01", "failed", "https://github.com/u/r.git", "2026-02-18T10:00:05"⟩] }

def recRollback : DeploymentRecord :=
  { deployment_id := "dep-20261012-rollback-a1b2c3d"
    repo_url := "https://github.com/u/r.git"
    branch := "main"
    commit_sha := "a1b2c3d4e5f6a7b8c9d0a1b2c3d4e5f6a7b8c9d0"
    project_type := "docker"
    image_name := "myapp"
    image_tag := "myapp:v1"
    container_name := "myapp-rollback-a1b2c3d-p8080"
    container_id := some "cid1"
    host_port := 8080
    container_port := 8000
    status := .running
    created_at := "2026-10-12T00:00:00"
    started_at := some "2026-10-12T00:00:00"
    completed_at := some "2026-10-12T00:00:00"
    rollback_from := some "dep-20260218-fail01" }

def sampleRollbackOut : RollbackOutcome :=
  { engineCall := ⟨"myapp:v1", "myapp-rollback-a1b2c3d-p8080", 8080, 8000, []⟩
    record := recRollback
    store := sampleStore.save recRollback "2026-10-12T00:00:00"
    previous := recRun
    failedRecord := some recFail }

def recDeployedDefaults : DeploymentRecord :=
  { deployment_id := "dep-20261012093045-web"
    repo_url := "unknown"
    branch := "unknown"
    commit_sha := "unknown"
    project_type := "docker"
    image_name := "myapp"
    image_tag := "myapp:v1"
    container_name := "web"
    container_id := some "c123"
    host_port := 8080
    container_port := 8000
    status := .running
    created_at := "2026-10-12T09:30:45"
    started_at := some "2026-10-12T09:30:45"
    completed_at := some "2026-10-12T09:30:45"
    rollback_from := none }

def defaultsArgs : DeployArgs :=
  ⟨"myapp:v1", "web", some 8080, 8000, none, none, none, none, none, none⟩

def defaultsEnv : DeployEnv :=
  ⟨fun _ => true, 8000, 9000, ⟨2026, 10, 12, 9, 30, 45⟩, "2026-10-12T09:30:45", "c123"⟩

/-! ## Helper lemmas -/

theorem lexLe_refl (l : List Char) : lexLe l l = true := by
  induction l with
  | nil => rfl
  | cons c cs ih => simp [lexLe, ih]

theorem lexLe_total (a b : List Char) (h : lexLe a b = false) : lexLe b a = true := by
  induction a generalizing b with
  | nil => simp [lexLe] at h
  | cons c cs ih =>
    cases b with
    | nil => rfl
    | cons d ds =>
      by_cases h1 : c.toNat < d.toNat
      · simp [lexLe, h1] at h
      · by_cases h2 : d.toNat < c.toNat
        · simp [lexLe, h2]
        · simp only [lexLe, if_neg h1, if_neg h2] at h
          simpa [lexLe, if_neg h1, if_neg h2] using ih _ h

theorem lexLe_trans (a b c : List Char) (hab : lexLe a b = true) (hbc : lexLe b c = true) :
    lexLe a c = true := by
  induction a generalizing b c with
  | nil => rfl
  | cons x xs ih =>
    cases b with
    | nil => simp [lexLe] at hab
    | cons y ys =>
      cases c with
      | nil => simp [lexLe] at hbc
      | cons z zs =>
        by_cases hxy : x.toNat < y.toNat
        · by_cases hyz : y.toNat < z.toNat
          · have hxz : x.toNat < z.toNat := lt_trans hxy hyz
            simp [lexLe, hxz]
          · by_cases hzy : z.toNat < y.toNat
            · simp [lexLe, hyz, hzy] at hbc
            · have hxz : x.toNat < z.toNat := by omega
              simp [lexLe, hxz]
        · by_cases hyx : y.toNat < x.toNat
          · simp [lexLe, hxy, hyx] at hab
          · simp only [lexLe, if_neg hxy, if_neg hyx] at hab
            by_cases hyz : y.toNat < z.toNat
            · have hxz : x.toNat < z.toNat := by omega
              simp [lexLe, hxz]
            · by_cases hzy : z.toNat < y.toNat
              · simp [lexLe, hyz, hzy] at hbc
              · simp only [lexLe, if_neg hyz, if_neg hzy] at hbc
                have hxz1 : ¬ x.toNat < z.toNat := by omega
                have hxz2 : ¬ z.toNat < x.toNat := by omega
                simp only [lexLe, if_neg hxz1, if_neg hxz2]
                exact ih _ _ hab hbc

theorem updLe_refl (e : IndexEntry) : updLe e e = true := lexLe_refl _

theorem updLe_total (a b : IndexEntry) (h : updLe a b = false) : updLe b a = true :=
  lexLe_total _ _ h

theorem updLe_trans (a b c : IndexEntry) (hab : updLe a b = true) (hbc : updLe b c = true) :
    updLe a c = true :=
  lexLe_trans _ _ _ hab hbc

/-- The head of the descending stable sort is a maximal element. -/
theorem sortByUpdatedDesc_max (l : List IndexEntry) (hne : l ≠ []) :
    ∃ e rest, sortByUpdatedDesc l = e :: rest ∧ e ∈ l ∧ ∀ x ∈ l, updLe x e = true := by
  induction l with
  | nil => exact absurd rfl hne
  | cons a as ih =>
    cases as with
    | nil =>
      exact ⟨a, [], rfl, List.mem_singleton.mpr rfl, by
        intro x hx
        rw [List.mem_singleton] at hx
        rw [hx]
        exact updLe_refl a⟩
    | cons b bs =>
      obtain ⟨e, rest, hsort, hmem, hmax⟩ := ih (by simp)
      by_cases hcmp : updLe e a = true
      · refine ⟨a, e :: rest, ?_, List.mem_cons_self a _, ?_⟩
        · show insertByUpdatedDesc a (sortByUpdatedDesc (b :: bs)) = a :: e :: rest
          rw [hsort]
          simp [insertByUpdatedDesc, hcmp]
        · intro x hx
          rcases List.mem_cons.mp hx with hx | hx
          · rw [hx]; exact updLe_refl a
          · exact updLe_trans _ _ _ (hmax x hx) hcmp
      · have hcmp' : updLe e a = false := by
          cases hval : updLe e a
          · rfl
          · exact absurd hval hcmp
        refine ⟨e, insertByUpdatedDesc a rest, ?_, List.mem_cons_of_mem a hmem, ?_⟩
        · show insertByUpdatedDesc a (sortByUpdatedDesc (b :: bs)) = e :: insertByUpdatedDesc a rest
          rw [hsort]
          simp [insertByUpdatedDesc, hcmp']
        · intro x hx
          rcases List.mem_cons.mp hx with hx | hx
          · rw [hx]; exact updLe_total e a hcmp'
          · exact hmax x hx

/-- `find?` skips a block in which the predicate never holds. -/
theorem find?_append_of_none {α : Type} (p : α → Bool) (l₁ l₂ : List α)
    (h : ∀ x ∈ l₁, p x = false) :
    List.find? p (l₁ ++ l₂) = List.find? p l₂ := by
  induction l₁ with
  | nil => rfl
  | cons a as ih =>
    rw [List.cons_append, List.find?_cons_of_neg]
    · exact ih (fun x hx => h x (List.mem_cons_of_mem a hx))
    · simp [h a (List.mem_cons_self a as)]

/-- Read-your-writes of the record file: after `save r`, `load r.deployment_id`
returns `r`. -/
theorem load_save (st : StateStore) (r : DeploymentRecord) (now : String) :
    (st.save r now).load r.deployment_id = some r := by
  unfold StateStore.save StateStore.load
  rw [find?_append_of_none]
  · simp [List.find?_cons]
  · intro x hx
    have := (List.mem_filter.mp hx).2
    simpa [bne] using this

/-- A character matching the image-name classes is not a colon. -/
theorem isNameStart_ne_colon {c : Char} (h : isNameStart c = true) : c ≠ ':' := by
  intro hc
  rw [hc] at h
  exact absurd h (by decide)

theorem isNameChar_ne_colon {c : Char} (h : isNameChar c = true) : c ≠ ':' := by
  intro hc
  rw [hc] at h
  exact absurd h (by decide)

theorem matchesNamePatBody_no_colon (l : List Char) (h : matchesNamePatBody l = true) :
    ∀ c ∈ l, c ≠ ':' := by
  cases l with
  | nil => intro c hc; cases hc
  | cons a as =>
    rw [matchesNamePatBody, Bool.and_eq_true] at h
    intro c hc
    rcases List.mem_cons.mp hc with hc | hc
    · rw [hc]; exact isNameStart_ne_colon h.1
    · exact isNameChar_ne_colon ((List.all_eq_true.mp h.2) c hc)

/-- A string accepted through `pyFullMatch` is a body-accepted string possibly
followed by one newline, so its characters satisfy any property the body's
characters and the newline satisfy. -/
theorem pyFullMatch_chars {body : List Char → Bool} {P : Char → Prop}
    (hbody : ∀ l, body l = true → ∀ c ∈ l, P c) (hnl : P '\n') (l : List Char)
    (h : pyFullMatch body l = true) : ∀ c ∈ l, P c := by
  rw [pyFullMatch, Bool.or_eq_true] at h
  rcases h with h | h
  · exact hbody l h
  · rw [Bool.and_eq_true] at h
    obtain ⟨hlast, hbody'⟩ := h
    rw [beq_iff_eq] at hlast
    have hne : l ≠ [] := by
      intro he
      rw [he] at hlast
      cases hlast
  -- the string is its dropLast (accepted by the body) plus the final newline
    have hsplit : l.dropLast ++ [l.getLast hne] = l := List.dropLast_append_getLast hne
    have hgl : l.getLast hne = '\n' := by
      rw [List.getLast?_eq_getLast l hne] at hlast
      exact Option.some.inj hlast
    intro c hc
    rw [← hsplit, hgl] at hc
    rcases List.mem_append.mp hc with hc | hc
    · exact hbody _ hbody' c hc
    · rw [List.mem_singleton] at hc
      rw [hc]
      exact hnl

theorem matchesNamePat_no_colon (l : List Char) (h : matchesNamePat l = true) :
    ∀ c ∈ l, c ≠ ':' :=
  pyFullMatch_chars matchesNamePatBody_no_colon (by decide) l h

/-- `split(':', 1)` on `name ++ ":" ++ version` recovers the parts when the
name holds no colon. -/
theorem splitFirstColon_append (name version : List Char) (h : ∀ c ∈ name, c ≠ ':') :
    splitFirstColon (name ++ ':' :: version) = (name, some version) := by
  induction name with
  | nil => simp [splitFirstColon]
  | cons a as ih =>
    have ha : a ≠ ':' := h a (List.mem_cons_self a as)
    rw [List.cons_append, splitFirstColon, if_neg ha,
      ih (fun c hc => h c (List.mem_cons_of_mem a hc))]

/-- Core of the idempotence property on char lists. -/
theorem validate_image_tag_core (tag l : List Char) (h : validate_image_tag tag = some l) :
    ':' ∈ l ∧ validate_image_tag l = some l := by
  simp only [validate_image_tag] at h
  split at h
  case isTrue hcond =>
    obtain rfl := Option.some.inj h
    rw [Bool.and_eq_true] at hcond
    have hnc : ∀ c ∈ (splitFirstColon tag).1, c ≠ ':' :=
      matchesNamePat_no_colon _ hcond.1
    constructor
    · exact List.mem_append_right _ (List.mem_cons_self _ _)
    · simp only [validate_image_tag]
      rw [splitFirstColon_append _ _ hnc]
      simp only [Option.getD_some, hcond.1, hcond.2, Bool.and_self, if_true]
  case isFalse => cases h

/-- C5: every string accepted by `validate_image_tag` is returned containing a
colon, and feeding the returned value back into `validate_image_tag` is
accepted and returns the same value (idempotence). -/
theorem validate_image_tag_idempotent (tag out : String)
    (h : validate_image_tag_str tag = some out) :
    ':' ∈ out.toList ∧ validate_image_tag_str out = some out := by
  unfold validate_image_tag_str at h ⊢
  obtain ⟨l, hl, hout⟩ := Option.map_eq_some'.mp h
  have hcore := validate_image_tag_core _ _ hl
  have hdata : out.toList = l := by subst hout; rfl
  constructor
  · rw [hdata]; exact hcore.1
  · rw [hdata, hcore.2, Option.map_some']
    rw [← hout]

/-- Witness for C5 at the concrete tag "myapp" (accepted, canonicalized to
"myapp:latest"). -/
theorem validate_image_tag_idempotent_witness :
    validate_image_tag_str "myapp" = some "myapp:latest"
    ∧ (':' ∈ ("myapp:latest" : String).toList
        ∧ validate_image_tag_str "myapp:latest" = some "myapp:latest") :=
  ⟨by rfl, validate_image_tag_idempotent "myapp" "myapp:latest" (by rfl)⟩

/-- C7: a URL containing any of the characters `;`, `|`, `&`, backtick, `$`
is rejected by `validate_git_url` for every allowlist — either at the scheme
check or at the dangerous-character check, never reaching the host check. -/
theorem validate_git_url_rejects_dangerous (url : String) (hosts : List String)
    (h : ∃ c ∈ url.toList, c ∈ dangerousUrlChars) :
    ∀ hostname, validate_git_url url hosts ≠ .ok hostname := by
  intro hostname hcontra
  have hany : url.toList.any (fun c => dangerousUrlChars.contains c) = true := by
    obtain ⟨c, hc1, hc2⟩ := h
    rw [List.any_eq_true]
    refine ⟨c, hc1, ?_⟩
    fin_cases hc2 <;> rfl
  simp only [validate_git_url] at hcontra
  rw [hany] at hcontra
  split at hcontra
  · cases hcontra
  · cases hcontra

/-- Witness for C7: an injection-shaped URL on an allowlisted host. -/
theorem validate_git_url_rejects_dangerous_witness :
    (∃ c ∈ ("https://github.com/u/r.git;rm -rf /" : String).toList, c ∈ dangerousUrlChars)
    ∧ ∀ hostname,
        validate_git_url "https://github.com/u/r.git;rm -rf /" ["github.com"] ≠ .ok hostname :=
  ⟨by decide, validate_git_url_rejects_dangerous _ _ (by decide)⟩

/-- C3: after `save(R)` the index holds exactly one entry with R's
deployment id, whose status and repo_url are R's — whether or not entries
with that id existed before (the filter removes them all; one fresh entry is
appended). -/
theorem save_index_unique (st : StateStore) (r : DeploymentRecord) (now : String) :
    (((st.save r now).index.filter
        (fun e => e.deployment_id == r.deployment_id)).length = 1)
    ∧ ∀ e ∈ (st.save r now).index, e.deployment_id = r.deployment_id →
        e.status = r.status.value ∧ e.repo_url = r.repo_url := by
  constructor
  · simp only [StateStore.save, update_index, List.filter_append]
    have h1 : (st.index.filter (fun d => d.deployment_id != r.deployment_id)).filter
        (fun e => e.deployment_id == r.deployment_id) = [] := by
      rw [List.filter_eq_nil_iff]
      intro a ha
      have h2 := (List.mem_filter.mp ha).2
      simp only [bne_iff_ne, ne_eq] at h2
      simp [h2]
    rw [h1]
    simp
  · intro e he heq
    simp only [StateStore.save, update_index] at he
    rcases List.mem_append.mp he with he | he
    · have h2 := (List.mem_filter.mp he).2
      simp only [bne_iff_ne, ne_eq] at h2
      exact absurd heq h2
    · rw [List.mem_singleton] at he
      rw [he]
      exact ⟨rfl, rfl⟩

/-- C4: `find_latest_successful` returns `None` when no index entry matches;
otherwise it returns `load` of a matching entry that is maximal in
`updated_at` among the matches; and — provided every record file parses to a
record carrying the file's own id — it never returns a record whose
deployment id equals `exclude`. -/
theorem find_latest_successful_spec (st : StateStore) (repo_url : String)
    (exclude : Option String)
    (hcons : st.records.all (fun p => p.2.deployment_id == p.1) = true) :
    (fls_candidates st.index repo_url exclude = [] →
        st.find_latest_successful repo_url exclude = none)
    ∧ (fls_candidates st.index repo_url exclude ≠ [] →
        ∃ e ∈ fls_candidates st.index repo_url exclude,
          (∀ x ∈ fls_candidates st.index repo_url exclude, updLe x e = true)
          ∧ st.find_latest_successful repo_url exclude = st.load e.deployment_id)
    ∧ ∀ rec, st.find_latest_successful repo_url exclude = some rec →
        some rec.deployment_id ≠ exclude := by
  refine ⟨?_, ?_, ?_⟩
  · intro h
    simp [StateStore.find_latest_successful, h, sortByUpdatedDesc]
  · intro h
    obtain ⟨e, rest, hsort, hmem, hmax⟩ := sortByUpdatedDesc_max _ h
    exact ⟨e, hmem, hmax, by simp [StateStore.find_latest_successful, hsort]⟩
  · intro rec hrec
    by_cases hc : fls_candidates st.index repo_url exclude = []
    · simp [StateStore.find_latest_successful, hc, sortByUpdatedDesc] at hrec
    · obtain ⟨e, rest, hsort, hmem, hmax⟩ := sortByUpdatedDesc_max _ hc
      have hload : st.load e.deployment_id = some rec := by
        simpa [StateStore.find_latest_successful, hsort] using hrec
      simp only [StateStore.load] at hload
      obtain ⟨p, hfind, hp2⟩ := Option.map_eq_some'.mp hload
      have hpmem : p ∈ st.records := List.mem_of_find?_eq_some hfind
      have hpid := List.find?_some hfind
      have hcons' := (List.all_eq_true.mp hcons) p hpmem
      simp only [beq_iff_eq] at hcons' hpid
      have hid : rec.deployment_id = e.deployment_id := by
        rw [← hp2, hcons', hpid]
      have hpred := (List.mem_filter.mp hmem).2
      simp only [Bool.and_eq_true, Bool.not_eq_true', beq_eq_false_iff_ne, ne_eq] at hpred
      rw [hid]
      exact hpred.2

/-- Witness for C4 on a concrete two-record store (the consistency hypothesis
is checked by evaluation). -/
theorem find_latest_successful_spec_witness :
    sampleStore.records.all (fun p => p.2.deployment_id == p.1) = true
    ∧ ((fls_candidates sampleStore.index "https://github.com/u/r.git"
          (some "dep-20260218-fail01") = [] →
        sampleStore.find_latest_successful "https://github.com/u/r.git"
          (some "dep-20260218-fail01") = none)
      ∧ (fls_candidates sampleStore.index "https://github.com/u/r.git"
            (some "dep-20260218-fail01") ≠ [] →
          ∃ e ∈ fls_candidates sampleStore.index "https://github.com/u/r.git"
              (some "dep-20260218-fail01"),
            (∀ x ∈ fls_candidates sampleStore.index "https://github.com/u/r.git"
                (some "dep-20260218-fail01"), updLe x e = true)
            ∧ sampleStore.find_latest_successful "https://github.com/u/r.git"
                (some "dep-20260218-fail01") = sampleStore.load e.deployment_id)
      ∧ ∀ rec, sampleStore.find_latest_successful "https://github.com/u/r.git"
            (some "dep-20260218-fail01") = some rec →
          some rec.deployment_id ≠ some "dep-20260218-fail01") :=
  ⟨by rfl,
   find_latest_successful_spec sampleStore "https://github.com/u/r.git"
     (some "dep-20260218-fail01") (by rfl)⟩

/-- C2: for every target content, datum and error-injection point, the run of
`_atomic_write_json` (i) never exposes anything at the target path other than
the old content or the complete new content, (ii) on error leaves the target
unchanged and the temp file unlinked, (iii) on success ends with the new
content committed and no temp file, and (iv) succeeds exactly when no step
failed — only the completed rename makes the new content observable. -/
theorem atomic_write_json_atomic (α : Type) (old : Option α) (data : α) (failAt : ℕ) :
    (∀ s ∈ (atomic_write_run old data failAt).1, s.target = old ∨ s.target = some data)
    ∧ ((atomic_write_run old data failAt).2 = false →
        (∀ s ∈ (atomic_write_run old data failAt).1, s.target = old)
        ∧ (atomic_write_run old data failAt).1.getLast? = some ⟨old, .absent⟩)
    ∧ ((atomic_write_run old data failAt).2 = true →
        (atomic_write_run old data failAt).1.getLast? = some ⟨some data, .absent⟩)
    ∧ ((atomic_write_run old data failAt).2 = true ↔ 4 ≤ failAt) := by
  match failAt with
  | 0 => refine ⟨?_, ?_, ?_, ?_⟩ <;> simp [atomic_write_run]
  | 1 => refine ⟨?_, ?_, ?_, ?_⟩ <;> simp [atomic_write_run]
  | 2 => refine ⟨?_, ?_, ?_, ?_⟩ <;> simp [atomic_write_run]
  | 3 => refine ⟨?_, ?_, ?_, ?_⟩ <;> simp [atomic_write_run]
  | n + 4 => refine ⟨?_, ?_, ?_, ?_⟩ <;> simp [atomic_write_run]

/-- Attempt counters never go below the counter the loop entered with. -/
theorem hcLoop_attempts_ge (expected : ℕ) (deadline backoff : ℚ) (atts : List HcAttempt)
    (elapsed : ℚ) (attempt : ℕ) (interval : ℚ) (lastStatus : Option ℕ) :
    hcLoop expected deadline backoff elapsed attempt interval lastStatus atts = .fuelOut
    ∨ attempt ≤ (hcLoop expected deadline backoff elapsed attempt interval lastStatus atts).attempts := by
  induction atts generalizing elapsed attempt interval lastStatus with
  | nil =>
    unfold hcLoop
    split
    · exact Or.inl rfl
    · exact Or.inr (le_refl _)
  | cons a rest ih =>
    unfold hcLoop
    split
    · cases ha : a.result with
      | some code =>
        simp only [ha]
        by_cases hc : code = expected
        · rw [if_pos hc]
          exact Or.inr (Nat.le_succ _)
        · rw [if_neg hc]
          rcases ih (elapsed + a.dur + min interval 10) (attempt + 1)
              (interval * backoff) (some code) with h | h
          · exact Or.inl h
          · exact Or.inr (le_trans (Nat.le_succ _) h)
      | none =>
        simp only [ha]
        rcases ih (elapsed + a.dur + min interval 10) (attempt + 1)
            (interval * backoff) lastStatus with h | h
        · exact Or.inl h
        · exact Or.inr (le_trans (Nat.le_succ _) h)
    · exact Or.inr (le_refl _)

/-- A healthy exit happens during an iteration entered before the deadline,
so its elapsed time exceeds the deadline by at most one request duration. -/
theorem hcLoop_healthy_elapsed (expected : ℕ) (deadline backoff : ℚ) (atts : List HcAttempt)
    (hdur : ∀ a ∈ atts, a.dur ≤ 5) (elapsed : ℚ) (attempt : ℕ) (interval : ℚ)
    (lastStatus : Option ℕ) (code n : ℕ) (el : ℚ)
    (h : hcLoop expected deadline backoff elapsed attempt interval lastStatus atts
          = .healthy code n el) :
    el < deadline + 5 := by
  induction atts generalizing elapsed attempt interval lastStatus with
  | nil =>
    unfold hcLoop at h
    split at h <;> cases h
  | cons a rest ih =>
    unfold hcLoop at h
    split at h
    case isTrue hlt =>
      cases ha : a.result with
      | some c2 =>
        rw [ha] at h
        simp only [] at h
        by_cases hc : c2 = expected
        · rw [if_pos hc] at h
          simp only [HcOutcome.healthy.injEq] at h
          have h5 : a.dur ≤ 5 := hdur a (List.mem_cons_self a rest)
          rw [← h.2.2]
          linarith
        · rw [if_neg hc] at h
          exact ih (fun x hx => hdur x (List.mem_cons_of_mem a hx)) _ _ _ _ h
      | none =>
        rw [ha] at h
        simp only [] at h
        exact ih (fun x hx => hdur x (List.mem_cons_of_mem a hx)) _ _ _ _ h
    case isFalse => cases h

/-- Counterexample to C8 as stated: with `timeout = 0` the deadline check
fails before any HTTP request, so `healthcheck` raises `HealthCheckError`
having made zero attempts — even though the pending first attempt would have
succeeded immediately. -/
theorem healthcheck_zero_timeout_no_attempt :
    healthcheck 0 2 (3/2) 200 [{ dur := 1, result := some 200 }] = .unhealthy 0 0 none
    ∧ (healthcheck 0 2 (3/2) 200 [{ dur := 1, result := some 200 }]).attempts = 0 :=
  ⟨rfl, rfl⟩

/-- C8 (amended): when the effective timeout is positive, `healthcheck` makes
at least one HTTP attempt before returning or raising (the model's `fuelOut`
marks runs where the finite outcome stream ended before the deadline); and
whenever it returns healthy, the elapsed time is below `timeout` plus the
5-second per-request timeout, provided each request indeed takes at most 5
seconds. -/
theorem healthcheck_positive_timeout_spec (timeout interval backoff : ℚ) (expected : ℕ)
    (atts : List HcAttempt) (hpos : 0 < timeout) (hdur : ∀ a ∈ atts, a.dur ≤ 5) :
    (healthcheck timeout interval backoff expected atts = .fuelOut
      ∨ 1 ≤ (healthcheck timeout interval backoff expected atts).attempts)
    ∧ ∀ code n el,
        healthcheck timeout interval backoff expected atts = .healthy code n el →
          el < timeout + 5 := by
  constructor
  · unfold healthcheck
    cases atts with
    | nil =>
      left
      unfold hcLoop
      rw [if_pos hpos]
    | cons a rest =>
      unfold hcLoop
      rw [if_pos hpos]
      cases ha : a.result with
      | some code =>
        simp only [ha]
        by_cases hc : code = expected
        · rw [if_pos hc]
          exact Or.inr (le_refl 1)
        · rw [if_neg hc]
          rcases hcLoop_attempts_ge expected timeout backoff rest
              (0 + a.dur + min interval 10) 1 (interval * backoff) (some code) with h | h
          · exact Or.inl h
          · exact Or.inr h
      | none =>
        simp only [ha]
        rcases hcLoop_attempts_ge expected timeout backoff rest
            (0 + a.dur + min interval 10) 1 (interval * backoff) none with h | h
        · exact Or.inl h
        · exact Or.inr h
  · intro code n el h
    exact hcLoop_healthy_elapsed expected timeout backoff atts hdur 0 0 interval none
      code n el h

/-- Witness for C8 (amended): a 5-second timeout with one immediately
successful attempt. -/
theorem healthcheck_positive_timeout_spec_witness :
    ((0:ℚ) < 5 ∧ ∀ a ∈ [({ dur := 1, result := some 200 } : HcAttempt)], a.dur ≤ 5)
    ∧ ((healthcheck 5 2 (3/2) 200 [{ dur := 1, result := some 200 }] = .fuelOut
        ∨ 1 ≤ (healthcheck 5 2 (3/2) 200 [{ dur := 1, result := some 200 }]).attempts)
      ∧ ∀ code n el,
          healthcheck 5 2 (3/2) 200 [{ dur := 1, result := some 200 }]
              = .healthy code n el →
            el < 5 + 5) :=
  ⟨⟨by decide, by
      intro a ha
      rw [List.mem_singleton] at ha
      rw [ha]
      decide⟩,
   healthcheck_positive_timeout_spec 5 2 (3/2) 200 _ (by decide) (by
      intro a ha
      rw [List.mem_singleton] at ha
      rw [ha]
      decide)⟩

/-- C1: evaluating the id generators at a concrete clock instant. The id
`deploy_container` auto-generates is `dep-` + 14 digits (`%Y%m%d%H%M%S`) + the
container name, which fails the spec pattern `dep-` + 8 digits + lowercase
alphanumerics — and is rejected by the repository's own
`validate_deployment_id`, the validator `rollback` applies to every supplied
id.  The rollback-generated id does match the spec's rollback shape. -/
theorem generated_deploy_id_fails_spec_pattern :
    gen_deploy_id ⟨2026, 10, 12, 9, 30, 45⟩ "web" = "dep-20261012093045-web"
    ∧ matchesDeploymentIdPattern "dep-20261012093045-web" = false
    ∧ validate_deployment_id "dep-20261012093045-web" = none
    ∧ gen_rollback_id ⟨2026, 10, 12, 9, 30, 45⟩ "a1b2c3d"
        = "dep-20261012-rollback-a1b2c3d" :=
  ⟨by decide, by decide, by decide, by decide⟩

/-- C6: a deploy with an env value containing `;` succeeds, and that exact
value is handed to the container-engine run call (only `RUN_AS_USER` is ever
stripped) — while `sanitize_environment_variables`, which the deploy path
never invokes, would have rejected it with a `ValidationError`. -/
theorem deploy_env_vars_bypass_sanitizer :
    (deploy_container_tool
        ⟨"myapp:v1", "web", some 8080, 8000, some [("CMD", "echo hi; rm -rf /")],
         none, none, none, none, none⟩
        defaultsEnv ⟨[], []⟩).toOption.map (fun o => o.1.env)
      = some [("CMD", "echo hi; rm -rf /")]
    ∧ sanitize_environment_variables [("CMD", "echo hi; rm -rf /")] = .error "CMD" :=
  ⟨by rfl, by rfl⟩

/-- C10: whichever of repo_url, branch, commit_sha, project_type the caller
omits (or passes empty), the deploy still constructs and persists the record,
with literal `"unknown"` for omitted repo_url/branch/commit_sha and
`"docker"` for an omitted project_type; the record is readable back from the
store. -/
theorem deploy_omitted_metadata_defaults (a : DeployArgs) (w : DeployEnv) (st : StateStore)
    (call : EngineRunCall) (rec : DeploymentRecord) (st' : StateStore)
    (h : deploy_container_tool a w st = .ok (call, rec, st')) :
    (a.repo_url = none → rec.repo_url = "unknown")
    ∧ (a.branch = none → rec.branch = "unknown")
    ∧ (a.commit_sha = none → rec.commit_sha = "unknown")
    ∧ (a.project_type = none → rec.project_type = "docker")
    ∧ st'.load rec.deployment_id = some rec := by
  simp only [deploy_container_tool] at h
  split at h
  · cases h
  split at h
  · cases h
  split at h
  · cases h
  split at h
  · cases h
  split at h
  · cases h
  simp only [Except.ok.injEq, Prod.mk.injEq] at h
  obtain ⟨hcall, hrec, hst⟩ := h
  subst hrec
  subst hst
  refine ⟨?_, ?_, ?_, ?_, load_save st _ _⟩
  · intro hn; simp [hn, pyOr]
  · intro hn; simp [hn, pyOr]
  · intro hn; simp [hn, pyOr]
  · intro hn; simp [hn, pyOr]

/-- Witness for C10: all four metadata arguments omitted; the persisted
record carries the placeholders and is saved. -/
theorem deploy_omitted_metadata_defaults_witness :
    deploy_container_tool defaultsArgs defaultsEnv ⟨[], []⟩
      = .ok (⟨"myapp:v1", "web", 8080, 8000, []⟩, recDeployedDefaults,
             StateStore.save ⟨[], []⟩ recDeployedDefaults "2026-10-12T09:30:45")
    ∧ ((defaultsArgs.repo_url = none → recDeployedDefaults.repo_url = "unknown")
      ∧ (defaultsArgs.branch = none → recDeployedDefaults.branch = "unknown")
      ∧ (defaultsArgs.commit_sha = none → recDeployedDefaults.commit_sha = "unknown")
      ∧ (defaultsArgs.project_type = none → recDeployedDefaults.project_type = "docker")
      ∧ (StateStore.save ⟨[], []⟩ recDeployedDefaults "2026-10-12T09:30:45").load
          recDeployedDefaults.deployment_id = some recDeployedDefaults) :=
  ⟨by rfl,
   deploy_omitted_metadata_defaults defaultsArgs defaultsEnv ⟨[], []⟩ _ _ _ (by rfl)⟩

/-- C9: whenever `rollback` succeeds, the engine run call deploys the
previous deployment's image on the previous deployment's container port; the
host port is the failed record's port exactly when a deployment_id was
supplied (and the failed record is the one loaded for that id), and the
previous deployment's own port when only repo_url was supplied; the persisted
record repeats those choices. -/
theorem rollback_port_and_image_choice (st : StateStore) (dep repo : Option String)
    (portAvail : ℕ → Bool) (today : Timestamp) (nowIso cid : String)
    (out : RollbackOutcome)
    (h : rollback st dep repo portAvail today nowIso cid = .ok out) :
    out.engineCall.image = out.previous.image_tag
    ∧ out.engineCall.container_port = out.previous.container_port
    ∧ (∀ f, out.failedRecord = some f → out.engineCall.host_port = f.host_port)
    ∧ (out.failedRecord = none → out.engineCall.host_port = out.previous.host_port)
    ∧ (truthy dep = true ↔ out.failedRecord.isSome = true)
    ∧ (∀ f, out.failedRecord = some f → st.load (dep.getD "") = some f)
    ∧ out.record.image_tag = out.previous.image_tag
    ∧ out.record.host_port = out.engineCall.host_port
    ∧ out.record.container_port = out.previous.container_port := by
  simp only [rollback] at h
  split at h
  · cases h
  by_cases ht : truthy dep = true
  · rw [if_pos ht] at h
    split at h
    · cases h
    next failedOpt target exclude heq =>
      cases heq' : validate_deployment_id (dep.getD "") with
      | none =>
        rw [heq'] at heq
        simp only [] at heq
        cases heq
      | some vid =>
        rw [heq'] at heq
        simp only [] at heq
        cases hload : st.load vid with
        | none =>
          rw [hload] at heq
          simp only [] at heq
          cases heq
        | some failed =>
          rw [hload] at heq
          simp only [Except.ok.injEq, Prod.mk.injEq] at heq
          obtain ⟨h1, h2, h3⟩ := heq
          have hvid : vid = dep.getD "" := by
            simp only [validate_deployment_id] at heq'
            split at heq'
            · exact (Option.some.inj heq').symm
            · cases heq'
          subst h1
          subst h2
          subst h3
          split at h
          · cases h
          next previous hprev =>
            split at h
            · cases h
            next engineCall hutil =>
              simp only [deploy_container_util] at hutil
              split at hutil
              · cases hutil
              obtain rfl := Except.ok.inj hutil
              obtain rfl := Except.ok.inj h
              refine ⟨rfl, rfl, ?_, ?_, ?_, ?_, rfl, rfl, rfl⟩
              · intro f hf
                obtain rfl := Option.some.inj hf
                rfl
              · intro hf; cases hf
              · simp [ht]
              · intro f hf
                obtain rfl := Option.some.inj hf
                rw [← hvid]
                exact hload
  · rw [if_neg ht] at h
    split at h
    · cases h
    next failedOpt target exclude heq =>
      simp only [Except.ok.injEq, Prod.mk.injEq] at heq
      obtain ⟨h1, h2, h3⟩ := heq
      subst h1
      subst h2
      subst h3
      split at h
      · cases h
      next previous hprev =>
        split at h
        · cases h
        next engineCall hutil =>
          simp only [deploy_container_util] at hutil
          split at hutil
          · cases hutil
          obtain rfl := Except.ok.inj hutil
          obtain rfl := Except.ok.inj h
          refine ⟨rfl, rfl, ?_, ?_, ?_, ?_, rfl, rfl, rfl⟩
          · intro f hf; cases hf
          · intro _; rfl
          · simp [ht]
          · intro f hf; cases hf

/-- Witness for C9: a rollback by deployment_id on the concrete two-record
store; the failed record's port 8080 is reused, with the previous
deployment's image `myapp:v1` and container port 8000. -/
theorem rollback_port_and_image_choice_witness :
    rollback sampleStore (some "dep-20260218-fail01") none (fun _ => true)
        ⟨2026, 10, 12, 0, 0, 0⟩ "2026-10-12T00:00:00" "cid1" = .ok sampleRollbackOut
    ∧ (sampleRollbackOut.engineCall.image = sampleRollbackOut.previous.image_tag
      ∧ sampleRollbackOut.engineCall.container_port
          = sampleRollbackOut.previous.container_port
      ∧ (∀ f, sampleRollbackOut.failedRecord = some f →
          sampleRollbackOut.engineCall.host_port = f.host_port)
      ∧ (sampleRollbackOut.failedRecord = none →
          sampleRollbackOut.engineCall.host_port = sampleRollbackOut.previous.host_port)
      ∧ (truthy (some "dep-20260218-fail01") = true
          ↔ sampleRollbackOut.failedRecord.isSome = true)
      ∧ (∀ f, sampleRollbackOut.failedRecord = some f →
          sampleStore.load ((some "dep-20260218-fail01").getD "") = some f)
      ∧ sampleRollbackOut.record.image_tag = sampleRollbackOut.previous.image_tag
      ∧ sampleRollbackOut.record.host_port = sampleRollbackOut.engineCall.host_port
      ∧ sampleRollbackOut.record.container_port
          = sampleRollbackOut.previous.container_port) :=
  ⟨by rfl,
   rollback_port_and_image_choice sampleStore (some "dep-20260218-fail01") none
     (fun _ => true) ⟨2026, 10, 12, 0, 0, 0⟩ "2026-10-12T00:00:00" "cid1"
     sampleRollbackOut (by rfl)⟩

end McpCicd
